import Mathlib

/-!
Verification development for the `ir-remote-wizard` core: a shallow
embedding, in Lean 4, of the protocol codec (`app/protocol_map.py`), the
signal disambiguator (`app/esphome_client.py`, `_parse_ir_logs`) and the
discovery wizard engine (`app/discovery.py`), together with theorems that
settle the frozen claims C1-C10 about the natural-language specification.

Embedding conventions:
* Python machine integers are `Nat` (all values here are non-negative);
  `~b & 0xFF` is written `255 - b % 256`, which is equal for every `b ≥ 0`.
* Fallible Python code (code that can raise `ValueError`, `IndexError`,
  `TypeError`) is embedded as `Option`-returning functions, `none` meaning
  an uncaught exception was raised.
* Python `str` primitives (`split`, `strip`, `lower`, `int(s, 16)`,
  string `<`) are modelled by the explicit character-list functions below.
  `int(s, 16)` is modelled for optionally whitespace-wrapped plain
  hex-digit strings (the only form occurring in Flipper-IRDB data);
  sign/`0x`/underscore forms do not occur and parse to `none` here.
* `time.time()` is an explicit `now : Nat` argument threaded through the
  session-store operations; engine operations that do not read the clock
  take no time argument, exactly as in the source.
* `dict` session stores are association lists with distinct keys;
  `sessions[sid]` lookups performed inside per-session operations are
  modelled by applying the operation to the session value directly (the
  store layer is embedded separately for the TTL claims).
-/

/-! ### Python string primitives -/

/-- Whitespace as recognised by Python `str.split`/`str.strip`
(ASCII subset; the log and database strings contain no exotic spaces). -/
def isPyWS (c : Char) : Bool :=
  c = ' ' ∨ c = '\t' ∨ c = '\n' ∨ c = '\r'

/-- Python `s.split()` (no argument): split on whitespace runs, dropping
empty pieces.  Also equals `s.strip().split()`. -/
def pySplit (s : String) : List String :=
  ((s.data.foldr
      (fun c (acc : List (List Char)) =>
        if isPyWS c then [] :: acc
        else
          match acc with
          | [] => [[c]]
          | g :: gs => (c :: g) :: gs)
      []).map (fun g => String.mk g)).filter (fun t => t ≠ "")

/-- Python `s.strip()`: remove leading and trailing whitespace. -/
def pyTrim (s : String) : String :=
  String.mk (((s.data.dropWhile isPyWS).reverse.dropWhile isPyWS).reverse)

/-- Value of one hex digit, or `none`. -/
def hexDigit? (c : Char) : Option Nat :=
  if '0' ≤ c ∧ c ≤ '9' then some (c.toNat - '0'.toNat)
  else if 'a' ≤ c ∧ c ≤ 'f' then some (c.toNat - 'a'.toNat + 10)
  else if 'A' ≤ c ∧ c ≤ 'F' then some (c.toNat - 'A'.toNat + 10)
  else none

/-- Python `int(s, 16)` on a plain hex-digit string (whitespace-wrapped
allowed, as `int` strips it); any other character raises, i.e. `none`. -/
def parseHexNat? (s : String) : Option Nat :=
  let cs := (pyTrim s).data
  if cs = [] then none
  else cs.foldlM (fun acc c => (hexDigit? c).map (fun d => acc * 16 + d)) 0

/-- Value of one decimal digit, or `none`. -/
def decDigit? (c : Char) : Option Nat :=
  if '0' ≤ c ∧ c ≤ '9' then some (c.toNat - '0'.toNat)
  else none

/-- Decimal digits to `Nat`, or `none` on a non-digit. -/
def decNat? (cs : List Char) : Option Nat :=
  if cs = [] then none
  else cs.foldlM (fun acc c => (decDigit? c).map (fun d => acc * 10 + d)) 0

/-- Python `int(s)` on an optionally `-`-signed decimal string. -/
def parseInt? (s : String) : Option Int :=
  match (pyTrim s).data with
  | '-' :: rest => (decNat? rest).map (fun n => -(n : Int))
  | cs => (decNat? cs).map (fun n => (n : Int))

/-- Python `str.lower` (ASCII letters; the button names are ASCII). -/
def charLower (c : Char) : Char :=
  if 'A' ≤ c ∧ c ≤ 'Z' then Char.ofNat (c.toNat + 32) else c

/-- Lowercased copy of a string, modelling Python `s.lower()`. -/
def strLower (s : String) : String :=
  String.mk (s.data.map charLower)

/-- Code-point lexicographic `≤` on character lists (Python string order). -/
def charListLe : List Char → List Char → Bool
  | [], _ => true
  | _ :: _, [] => false
  | a :: as, b :: bs =>
    if a.toNat < b.toNat then true
    else if b.toNat < a.toNat then false
    else charListLe as bs

/-- Python string `≤` (code-point lexicographic). -/
def strLe (a b : String) : Bool :=
  charListLe a.data b.data

/-- Least string of a non-empty list under Python string order; `""` for
the empty list.  `sorted(xs)[0]` in the source equals this minimum, for
any iteration order of the underlying set. -/
def minStr : List String → String
  | [] => ""
  | s :: rest => rest.foldl (fun a b => if strLe a b then a else b) s

/-! ### `app/protocol_map.py` — the protocol codec -/

/-- A value stored in the `data` dict of an ESPHome service call:
the source type annotation is `dict[str, int | list[int]]`, and the
Pronto branch additionally stores a string. -/
inductive PValue where
  | nat (n : Nat)
  | ints (l : List Int)
  | str (s : String)
deriving DecidableEq, Repr

/-- `ESPHomeIRCommand`: an IR command ready to send via an ESPHome API
service call.  `repeatCount` embeds the source field `repeat`. -/
structure ESPHomeIRCommand where
  service : String
  data : List (String × PValue)
  repeatCount : Nat := 1
deriving DecidableEq, Repr

/-- `_hex_bytes_to_int`: Flipper-style space-separated hex bytes (LE) to
an integer, taking at most `num_bytes` tokens.  `none` models the
`ValueError` raised by `int(part, 16)` on a non-hex token. -/
def _hex_bytes_to_int (hex_str : String) (num_bytes : Nat := 2) : Option Nat :=
  ((pySplit hex_str).take num_bytes).enum.foldlM
    (fun value p => (parseHexNat? p.2).map (fun d => value ||| (d <<< (8 * p.1))))
    0

/-- `_hex_bytes_to_full_int`: all hex bytes to a single LE integer. -/
def _hex_bytes_to_full_int (hex_str : String) : Option Nat :=
  (pySplit hex_str).enum.foldlM
    (fun value p => (parseHexNat? p.2).map (fun d => value ||| (d <<< (8 * p.1))))
    0

/-- `_add_complement`: build a 16-bit value from a byte and its
complement; `~b & 0xFF` is `255 - b % 256` on non-negative `b`. -/
def _add_complement (byte_val : Nat) : Nat :=
  byte_val ||| ((255 - byte_val % 256) <<< 8)

/-- `_reverse_bits`: reverse the bits of an 8-bit value (the three
mask-and-shift swaps of the source). -/
def _reverse_bits (b : Nat) : Nat :=
  let b1 := ((b &&& 0xF0) >>> 4) ||| ((b &&& 0x0F) <<< 4)
  let b2 := ((b1 &&& 0xCC) >>> 2) ||| ((b1 &&& 0x33) <<< 2)
  ((b2 &&& 0xAA) >>> 1) ||| ((b2 &&& 0x55) <<< 1)

/-- `_reverse_bits_n`: reverse the bit order of an n-bit value. -/
def _reverse_bits_n (value : Nat) : Nat → Nat :=
  go value 0
where
  /-- The source `for _ in range(n)` loop, carried by recursion on `n`. -/
  go : Nat → Nat → Nat → Nat
    | _, result, 0 => result
    | v, result, n + 1 => go (v >>> 1) ((result <<< 1) ||| (v &&& 1)) n

/-- `_convert_nec`: standard NEC, byte + complement on both fields. -/
def _convert_nec (address_hex command_hex : String) : Option ESPHomeIRCommand := do
  let addr_byte ← _hex_bytes_to_int address_hex 1
  let cmd_byte ← _hex_bytes_to_int command_hex 1
  pure ⟨"send_ir_nec",
        [("address", .nat (_add_complement addr_byte)),
         ("command", .nat (_add_complement cmd_byte))], 1⟩

/-- `_convert_necext`: 16-bit address unchanged, command + complement. -/
def _convert_necext (address_hex command_hex : String) : Option ESPHomeIRCommand := do
  let address ← _hex_bytes_to_int address_hex 2
  let cmd_byte ← _hex_bytes_to_int command_hex 1
  pure ⟨"send_ir_nec",
        [("address", .nat address), ("command", .nat (_add_complement cmd_byte))], 1⟩

/-- `_convert_samsung32`: bit-reverse bytes, frame `addr, addr, cmd, ~cmd`. -/
def _convert_samsung32 (address_hex command_hex : String) : Option ESPHomeIRCommand := do
  let a ← _hex_bytes_to_int address_hex 1
  let c ← _hex_bytes_to_int command_hex 1
  let addr := _reverse_bits a
  let cmd := _reverse_bits c
  let data := (addr <<< 24) ||| (addr <<< 16) ||| (cmd <<< 8) ||| (255 - cmd % 256)
  pure ⟨"send_ir_samsung", [("data", .nat data)], 1⟩

/-- `_convert_samsung36`: `int(address_hex, 16)` / `int(command_hex, 16)`
on the whole strings — raises on the space-separated byte form. -/
def _convert_samsung36 (address_hex command_hex : String) : Option ESPHomeIRCommand := do
  let address ← parseHexNat? address_hex
  let command ← parseHexNat? command_hex
  pure ⟨"send_ir_samsung36",
        [("address", .nat address), ("command", .nat command)], 1⟩

/-- `_convert_rc5`: pass-through of the two single bytes. -/
def _convert_rc5 (address_hex command_hex : String) : Option ESPHomeIRCommand := do
  let address ← _hex_bytes_to_int address_hex 1
  let command ← _hex_bytes_to_int command_hex 1
  pure ⟨"send_ir_rc5", [("address", .nat address), ("command", .nat command)], 1⟩

/-- `_convert_rc6`: pass-through of the two single bytes. -/
def _convert_rc6 (address_hex command_hex : String) : Option ESPHomeIRCommand := do
  let address ← _hex_bytes_to_int address_hex 1
  let command ← _hex_bytes_to_int command_hex 1
  pure ⟨"send_ir_rc6", [("address", .nat address), ("command", .nat command)], 1⟩

/-- `_convert_sirc`: logical word `(address << 7) | (command & 0x7F)`,
bit-reversed over `nbits`, with 3 repeats. -/
def _convert_sirc (address_hex command_hex : String) (nbits : Nat := 12) :
    Option ESPHomeIRCommand := do
  let address ← _hex_bytes_to_int address_hex 2
  let command ← _hex_bytes_to_int command_hex 1
  let logical := (address <<< 7) ||| (command &&& 0x7F)
  let data := _reverse_bits_n logical nbits
  pure ⟨"send_ir_sony", [("data", .nat data), ("nbits", .nat nbits)], 3⟩

/-- `_convert_lg`: full LE integer of the address bytes; bit width from
hex length, floored at 28. -/
def _convert_lg (address_hex command_hex : String) : Option ESPHomeIRCommand := do
  let data ← _hex_bytes_to_full_int address_hex
  let hex_len := (((pyTrim address_hex).data.filter (fun c => c ≠ ' '))).length
  let nbits := max 28 (hex_len * 4)
  pure ⟨"send_ir_lg", [("data", .nat data), ("nbits", .nat nbits)], 1⟩

/-- `_convert_panasonic`: 2-byte address, full LE command. -/
def _convert_panasonic (address_hex command_hex : String) : Option ESPHomeIRCommand := do
  let address ← _hex_bytes_to_int address_hex 2
  let command ← _hex_bytes_to_full_int command_hex
  pure ⟨"send_ir_panasonic",
        [("address", .nat address), ("command", .nat command)], 1⟩

/-- `_convert_pioneer`: the address bytes as one LE integer. -/
def _convert_pioneer (address_hex command_hex : String) : Option ESPHomeIRCommand := do
  let rc_code_1 ← _hex_bytes_to_full_int address_hex
  pure ⟨"send_ir_pioneer", [("rc_code_1", .nat rc_code_1)], 1⟩

/-- `_convert_jvc`: address ignored, command bytes as one LE integer. -/
def _convert_jvc (address_hex command_hex : String) : Option ESPHomeIRCommand := do
  let data ← _hex_bytes_to_full_int command_hex
  pure ⟨"send_ir_jvc", [("data", .nat data)], 1⟩

/-- `_convert_dish`: pass-through of the two single bytes. -/
def _convert_dish (address_hex command_hex : String) : Option ESPHomeIRCommand := do
  let address ← _hex_bytes_to_int address_hex 1
  let command ← _hex_bytes_to_int command_hex 1
  pure ⟨"send_ir_dish", [("address", .nat address), ("command", .nat command)], 1⟩

/-- `_convert_coolix`: command bytes as one LE integer. -/
def _convert_coolix (address_hex command_hex : String) : Option ESPHomeIRCommand := do
  let first ← _hex_bytes_to_full_int command_hex
  pure ⟨"send_ir_coolix", [("first", .nat first)], 1⟩

/-- `_convert_raw`: space-separated integer timings to a raw command;
`none` models the `ValueError` of `int(x)` on a non-integer token. -/
def _convert_raw (raw_data : String) : Option ESPHomeIRCommand := do
  let code ← (pySplit raw_data).mapM parseInt?
  pure ⟨"send_ir_raw", [("code", .ints code)], 1⟩

/-- `PROTOCOL_CONVERTERS.get`: the dict of protocol converters, as a
lookup function (keys are distinct, so lookup order is immaterial). -/
def protocolConverter? (p : String) : Option (String → String → Option ESPHomeIRCommand) :=
  if p = "NEC" then some _convert_nec
  else if p = "NECext" then some _convert_necext
  else if p = "NEC42" then some _convert_nec
  else if p = "NEC42ext" then some _convert_necext
  else if p = "Samsung32" then some _convert_samsung32
  else if p = "Samsung36" then some _convert_samsung36
  else if p = "RC5" then some _convert_rc5
  else if p = "RC5X" then some _convert_rc5
  else if p = "RC6" then some _convert_rc6
  else if p = "SIRC" then some (fun a c => _convert_sirc a c 12)
  else if p = "SIRC15" then some (fun a c => _convert_sirc a c 15)
  else if p = "SIRC20" then some (fun a c => _convert_sirc a c 20)
  else if p = "LG" then some _convert_lg
  else if p = "LG32" then some _convert_lg
  else if p = "Panasonic" then some _convert_panasonic
  else if p = "Kaseikyo" then some _convert_panasonic
  else if p = "Pioneer" then some _convert_pioneer
  else if p = "JVC" then some _convert_jvc
  else if p = "Dish" then some _convert_dish
  else if p = "Coolix" then some _convert_coolix
  else none

/-- Python truthiness of an optional string: `None` and `""` are falsy. -/
def truthy : Option String → Bool
  | none => false
  | some s => s ≠ ""

/-- Outcome of `convert_code`: a command, the `None` return
(`UnsupportedProtocol`), or an uncaught exception. -/
inductive ConvertOutcome where
  | ok (cmd : ESPHomeIRCommand)
  | unsupported
  | error
deriving DecidableEq, Repr

/-- `convert_code`: convert a Flipper-IRDB code entry to an ESPHome IR
command.  `RAW_ONLY_PROTOCOLS = {"RCMM"}` is inlined as the string test. -/
def convert_code (protocol : String) (address command raw_data : Option String) :
    ConvertOutcome :=
  if protocol = "Pronto" ∧ truthy raw_data then
    .ok ⟨"send_ir_pronto", [("data", .str (raw_data.getD ""))], 1⟩
  else if protocol = "raw" ∧ truthy raw_data then
    match _convert_raw (raw_data.getD "") with
    | some cmd => .ok cmd
    | none => .error
  else if protocol = "RCMM" then
    if truthy raw_data then
      match _convert_raw (raw_data.getD "") with
      | some cmd => .ok cmd
      | none => .error
    else .unsupported
  else
    match protocolConverter? protocol with
    | some conv =>
      if truthy address ∧ truthy command then
        match conv (address.getD "") (command.getD "") with
        | some cmd => .ok cmd
        | none => .error
      else .unsupported
    | none => .unsupported


/-! ### `app/discovery.py` — the discovery wizard engine -/

/-- `SESSION_TTL` — 2 hours, in seconds. -/
def SESSION_TTL : Nat := 2 * 60 * 60

/-- `WizardPhase`. -/
inductive WizardPhase where
  | connect
  | device_type
  | brand
  | identify
  | narrowing
  | map_buttons
  | results
deriving DecidableEq, Repr

/-- One de-duplicated power-code candidate group, as produced by
`IRDatabase.get_power_codes_grouped` (the keys of the candidate dicts
used by the engine; `models` is never read by the engine and omitted). -/
structure Candidate where
  protocol : String
  address : Option String
  command : Option String
  raw_data : Option String
  device_ids : List Nat
  brands : List String
deriving DecidableEq, Repr

/-- One button-candidate record from
`IRDatabase.get_unique_buttons_for_devices`; `category` is the attribute
added dynamically during ordering. -/
structure ButtonRec where
  button_name : String
  protocol : String
  address : Option String
  command : Option String
  raw_data : Option String
  category : Option String := none
deriving DecidableEq, Repr

/-- `ConfirmedButton`. -/
structure ConfirmedButton where
  name : String
  protocol : String
  address : Option String
  command : Option String
  raw_data : Option String
deriving DecidableEq, Repr

/-- `WizardSession` — the per-conversation mutable state. -/
structure WizardSession where
  phase : WizardPhase := .connect
  device_type : String := ""
  brand : Option String := none
  device_name : String := ""
  edit_device_id : String := ""
  created_at : Nat := 0
  power_candidates : List Candidate := []
  current_candidate_idx : Nat := 0
  matched_device_ids : List Nat := []
  matched_brand : String := ""
  narrowing_pool : List Nat := []
  narrowing_tested : List Nat := []
  narrowing_round : Nat := 0
  button_candidates : List ButtonRec := []
  current_button_idx : Nat := 0
  confirmed_buttons : List ConfirmedButton := []
deriving DecidableEq, Repr

/-- `WizardSession.current_candidate` property. -/
def WizardSession.current_candidate (s : WizardSession) : Option Candidate :=
  s.power_candidates[s.current_candidate_idx]?

/-- `WizardSession.current_button` property. -/
def WizardSession.current_button (s : WizardSession) : Option ButtonRec :=
  s.button_candidates[s.current_button_idx]?

/-- `BUTTON_CATEGORIES` from `app/protocol_map.py` (insertion order). -/
def BUTTON_CATEGORIES : List (String × List String) :=
  [("Power", ["Power", "Power_on", "Power_off"]),
   ("Volume", ["Vol_up", "Vol_down", "Mute"]),
   ("Channel", ["Ch_up", "Ch_down", "0", "1", "2", "3", "4", "5", "6", "7", "8", "9"]),
   ("Navigation", ["Up", "Down", "Left", "Right", "Ok", "Back", "Menu", "Home", "Guide", "Info"]),
   ("Input", ["Source", "Input", "Hdmi1", "Hdmi2", "Hdmi3", "Tv", "Aux"]),
   ("Playback", ["Play", "Pause", "Stop", "Ff", "Rw", "Rec", "Next", "Prev"])]

/-- The external `db.get_unique_buttons_for_devices` collaborator:
a function from matched device ids to button records. -/
abbrev ButtonDb := List Nat → List ButtonRec

/-- `_load_button_candidates`: fetch buttons for the matched devices,
order them by `BUTTON_CATEGORIES` with Power excluded, then append the
rest under "Other".  The Python `seen` set is modelled as the list of
names inserted so far (only membership is used). -/
def _load_button_candidates (db : ButtonDb) (s : WizardSession) : WizardSession :=
  let buttons := db s.matched_device_ids
  let catPass := BUTTON_CATEGORIES.foldl
    (fun acc cat =>
      cat.2.foldl
        (fun acc target =>
          let target_lower := strLower target
          buttons.foldl
            (fun (acc : List ButtonRec × List String) btn =>
              if strLower btn.button_name = target_lower ∧ btn.button_name ∉ acc.2 then
                (acc.1 ++ [{ btn with category := some cat.1 }],
                 acc.2 ++ [btn.button_name])
              else acc)
            acc)
        acc)
    (([] : List ButtonRec), ["Power", "Power_on"])
  let allPass := buttons.foldl
    (fun (acc : List ButtonRec × List String) btn =>
      if btn.button_name ∉ acc.2 ∧ strLower btn.button_name ≠ "power" then
        (acc.1 ++ [{ btn with category := some "Other" }], acc.2 ++ [btn.button_name])
      else acc)
    catPass
  { s with button_candidates := allPass.1, current_button_idx := 0 }

/-- The confirmed "Power" button built from a candidate (the dataclass
construction repeated at each resolution site in the source). -/
def powerButtonOf (c : Candidate) : ConfirmedButton :=
  ⟨"Power", c.protocol, c.address, c.command, c.raw_data⟩

/-- `candidate["brands"][0] if candidate["brands"] else ""`. -/
def firstBrand (c : Candidate) : String :=
  match c.brands with
  | [] => ""
  | b :: _ => b

/-- `set_device_type` (session-level body; the `sessions[sid]` lookup is
the store layer's concern). -/
def set_device_type (s : WizardSession) (device_type : String) : WizardSession :=
  { s with device_type := device_type, phase := .brand }

/-- `confirm_power_code`: handle the user's yes/no on a power-code test.
`none` models the `TypeError` raised when `worked` is true but
`current_candidate` is `None`. -/
def confirm_power_code (db : ButtonDb) (s : WizardSession) (worked : Bool) :
    Option WizardSession :=
  if worked then
    match s.current_candidate with
    | none => none
    | some c =>
      some (_load_button_candidates db
        { s with
          matched_device_ids := c.device_ids,
          matched_brand := firstBrand c,
          confirmed_buttons := s.confirmed_buttons ++ [powerButtonOf c],
          phase := .map_buttons })
  else
    let s' := { s with current_candidate_idx := s.current_candidate_idx + 1 }
    some (if s'.power_candidates.length ≤ s'.current_candidate_idx then
            { s' with phase := .results }
          else s')

/-- `_resolve_candidate`: resolve to a single candidate and move to
button mapping. -/
def _resolve_candidate (db : ButtonDb) (s : WizardSession) (c : Candidate) :
    WizardSession :=
  _load_button_candidates db
    { s with
      matched_device_ids := c.device_ids,
      matched_brand := firstBrand c,
      confirmed_buttons := s.confirmed_buttons ++ [powerButtonOf c],
      phase := .map_buttons }

/-- `_resolve_candidates_imprecise`: fall back to ALL candidates.
`list(set(...))` is modelled by `dedup` (the claims only inspect set
membership, which is independent of Python's set iteration order), and
`sorted(all_brands)[0]` by the minimum `minStr`.  `none` models the
`IndexError` of `power_candidates[0]` on an empty candidate list. -/
def _resolve_candidates_imprecise (db : ButtonDb) (s : WizardSession) :
    Option WizardSession :=
  let all_device_ids := (s.power_candidates.map Candidate.device_ids).flatten
  let all_brands := (s.power_candidates.map Candidate.brands).flatten
  match s.power_candidates.head? with
  | none => none
  | some first =>
    some (_load_button_candidates db
      { s with
        matched_device_ids := all_device_ids.dedup,
        matched_brand := if all_brands = [] then "" else minStr all_brands,
        confirmed_buttons := s.confirmed_buttons ++ [powerButtonOf first],
        phase := .map_buttons })

/-- `start_narrowing`: pool = all candidate indices, round 1, first half
tested. -/
def start_narrowing (s : WizardSession) : WizardSession :=
  let pool := List.range s.power_candidates.length
  { s with
    narrowing_pool := pool,
    narrowing_round := 1,
    phase := .narrowing,
    narrowing_tested := pool.take (pool.length / 2) }

/-- `confirm_bulk_blast`: after bulk-blasting every candidate.  `none`
models the `IndexError` of `power_candidates[0]` when the list is empty
and `worked` is true. -/
def confirm_bulk_blast (db : ButtonDb) (s : WizardSession) (worked : Bool) :
    Option WizardSession :=
  if worked then
    if 1 < s.power_candidates.length then
      some (start_narrowing s)
    else
      match s.power_candidates.head? with
      | some c => some (_resolve_candidate db s c)
      | none => none
  else
    some { s with phase := .results }

/-- `narrow_confirm`: one yes/no round of the binary-search narrowing.
`none` models the `IndexError` of `power_candidates[pool[0]]` when the
surviving index is out of range of the candidate list (and the one
inside the imprecise fallback). -/
def narrow_confirm (db : ButtonDb) (s : WizardSession) (worked : Bool) :
    Option WizardSession :=
  let pool' :=
    if worked then s.narrowing_tested
    else s.narrowing_pool.filter (fun x => decide (x ∉ s.narrowing_tested))
  let s' := { s with narrowing_pool := pool' }
  if pool'.length = 0 then
    _resolve_candidates_imprecise db s'
  else if pool'.length = 1 then
    match pool'.head? with
    | some i =>
      match s'.power_candidates[i]? with
      | some c => some (_resolve_candidate db s' c)
      | none => none
    | none => none
  else
    some { s' with
           narrowing_round := s'.narrowing_round + 1,
           narrowing_tested := pool'.take (pool'.length / 2) }

/-- `confirm_button`: handle the user's yes/no on a button test.  The
source appends whenever `worked and button`, with no duplicate check. -/
def confirm_button (s : WizardSession) (worked : Bool) : WizardSession :=
  let s₁ :=
    match s.current_button with
    | some b =>
      if worked then
        { s with confirmed_buttons := s.confirmed_buttons ++
            [(⟨b.button_name, b.protocol, b.address, b.command, b.raw_data⟩ : ConfirmedButton)] }
      else s
    | none => s
  let s₂ := { s₁ with current_button_idx := s₁.current_button_idx + 1 }
  if s₂.button_candidates.length ≤ s₂.current_button_idx then
    { s₂ with phase := .results }
  else s₂

/-- `skip_to_results`. -/
def skip_to_results (s : WizardSession) : WizardSession :=
  { s with phase := .results }

/-! #### The session store (`DiscoveryEngine.sessions` dict) -/

/-- The engine's `sessions` dict: an association list keyed by session
id (Python dict keys are unique; theorems assume `Nodup` keys). -/
abbrev SessionStore := List (String × WizardSession)

/-- Dict lookup `sessions.get(sid)`. -/
def lookupSession : SessionStore → String → Option WizardSession
  | [], _ => none
  | kv :: t, sid => if kv.1 = sid then some kv.2 else lookupSession t sid

/-- Dict deletion `del sessions[sid]`. -/
def eraseSession (st : SessionStore) (sid : String) : SessionStore :=
  st.filter (fun kv => decide (kv.1 ≠ sid))

/-- Dict write `sessions[sid] = s` (overwrite in place, else append). -/
def setSession (st : SessionStore) (sid : String) (s : WizardSession) : SessionStore :=
  if (lookupSession st sid).isSome then
    st.map (fun kv => if kv.1 = sid then (sid, s) else kv)
  else st ++ [(sid, s)]

/-- `_evict_stale`: drop every session idle past the TTL (measured from
`created_at`; `now` is the `time.time()` reading). -/
def _evict_stale (st : SessionStore) (now : Nat) : SessionStore :=
  st.filter (fun kv => decide (¬ (SESSION_TTL < now - kv.2.created_at)))

/-- A fresh `WizardSession()` with `created_at = time.time()`. -/
def WizardSession.new (now : Nat) : WizardSession :=
  { created_at := now }

/-- `create_session`: evict stale sessions, then store a fresh one. -/
def create_session (st : SessionStore) (now : Nat) (sid : String) : SessionStore :=
  setSession (_evict_stale st now) sid (WizardSession.new now)

/-- `get_session`: lazy-eviction lookup; returns the possibly shrunk
store and the result. -/
def get_session (st : SessionStore) (now : Nat) (sid : String) :
    SessionStore × Option WizardSession :=
  match lookupSession st sid with
  | none => (st, none)
  | some s =>
    if SESSION_TTL < now - s.created_at then (eraseSession st sid, none)
    else (st, some s)

/-- Store-level `set_device_type` (`sessions[session_id]` raises
`KeyError`, i.e. `none`, on an unknown id). -/
def store_set_device_type (st : SessionStore) (sid : String) (dt : String) :
    Option SessionStore :=
  match lookupSession st sid with
  | none => none
  | some s => some (setSession st sid (set_device_type s dt))

/-! ### `app/esphome_client.py` — `_parse_ir_logs`, the signal disambiguator

The per-protocol log grammars in the source are `re.search` patterns of
the shape  literal · `[0-9A-Fa-f]+` · literal · (`[0-9A-Fa-f]+` | `\d+`),
or a single group, or (Pronto) literal · `\s*(.+)`.  `re.search` tries
every start position left to right; at a given position such a pattern
matches iff the literal is a prefix there and each greedy `+` group is
the maximal non-empty run of its character class (the following literal
starts with a non-class character, so no backtracking inside a run can
succeed).  `searchPos` below reproduces exactly that. -/

/-- Try an anchored matcher at every start position, left to right
(the `re.search` scan). -/
def searchPos {β : Type} (try_ : List Char → Option β) : List Char → Option β
  | [] => try_ []
  | c :: cs =>
    match try_ (c :: cs) with
    | some r => some r
    | none => searchPos try_ cs

/-- Strip an expected literal prefix. -/
def stripLit : List Char → List Char → Option (List Char)
  | [], cs => some cs
  | _ :: _, [] => none
  | p :: ps, c :: cs => if p = c then stripLit ps cs else none

/-- Is this a `[0-9A-Fa-f]` character? -/
def isHexChar (c : Char) : Bool :=
  ('0' ≤ c ∧ c ≤ '9') ∨ ('a' ≤ c ∧ c ≤ 'f') ∨ ('A' ≤ c ∧ c ≤ 'F')

/-- Is this a `\d` character? -/
def isDecChar (c : Char) : Bool :=
  '0' ≤ c ∧ c ≤ '9'

/-- Anchored `pre (cls1+) mid (cls2+)`: both groups greedy and non-empty. -/
def matchTwo (pre mid : List Char) (cls1 cls2 : Char → Bool) (cs : List Char) :
    Option (String × String) := do
  let r1 ← stripLit pre cs
  let g1 := r1.takeWhile cls1
  if g1 = [] then none
  else do
    let r2 ← stripLit mid (r1.dropWhile cls1)
    let g2 := r2.takeWhile cls2
    if g2 = [] then none
    else pure (String.mk g1, String.mk g2)

/-- Anchored `pre (cls+)`: one greedy non-empty group. -/
def matchOne (pre : List Char) (cls : Char → Bool) (cs : List Char) :
    Option String := do
  let r1 ← stripLit pre cs
  let g1 := r1.takeWhile cls
  if g1 = [] then none else pure (String.mk g1)

/-- `re.search(pre + "(cls1+)" + mid + "(cls2+)", line)`. -/
def searchTwo (pre mid : String) (cls1 cls2 : Char → Bool) (line : String) :
    Option (String × String) :=
  searchPos (matchTwo pre.data mid.data cls1 cls2) line.data

/-- `re.search(pre + "(cls+)", line)`. -/
def searchOne (pre : String) (cls : Char → Bool) (line : String) : Option String :=
  searchPos (matchOne pre.data cls) line.data

/-- `re.search("Received Pronto: data=\s*(.+)", line)`, already composed
with the `.strip()` the source applies to the group: at a position where
the literal matches and at least one character follows, the stripped
group is the trimmed remainder of the line (log lines contain no
newline, so `.` never stops early). -/
def searchPronto (line : String) : Option String :=
  searchPos
    (fun cs => do
      let rest ← stripLit "Received Pronto: data=".data cs
      if rest = [] then none else pure (pyTrim (String.mk rest)))
    line.data

/-- One parsed observation (`dict` appended to `parsed` in the source). -/
structure ParsedObs where
  protocol : String
  address : Option String
  command : Option String
  raw_data : Option String
  display : String
deriving DecidableEq, Repr

/-- The per-line grammar cascade of `_parse_ir_logs` (the body of
`for line in log_lines`, each `continue` being the next alternative;
a Pronto match with fewer than 8 whitespace tokens yields nothing). -/
def parse_ir_line (line : String) : Option ParsedObs :=
  match searchTwo "Received NEC: address=0x" ", command=0x" isHexChar isHexChar line with
  | some (g1, g2) =>
    some ⟨"NEC", some g1, some g2, none, "NEC addr=0x" ++ g1 ++ " cmd=0x" ++ g2⟩
  | none =>
  match searchOne "Received Samsung: data=0x" isHexChar line with
  | some g1 =>
    some ⟨"Samsung", none, none, some g1, "Samsung data=0x" ++ g1⟩
  | none =>
  match searchTwo "Received Samsung36: address=0x" ", command=0x" isHexChar isHexChar line with
  | some (g1, g2) =>
    some ⟨"Samsung36", some g1, some g2, none, "Samsung36 addr=0x" ++ g1 ++ " cmd=0x" ++ g2⟩
  | none =>
  match searchTwo "Received Sony: data=0x" ", nbits=" isHexChar isDecChar line with
  | some (g1, g2) =>
    some ⟨"Sony", none, none, some (g1 ++ ":" ++ g2), "Sony data=0x" ++ g1 ++ " nbits=" ++ g2⟩
  | none =>
  match searchTwo "Received RC5: address=0x" ", command=0x" isHexChar isHexChar line with
  | some (g1, g2) =>
    some ⟨"RC5", some g1, some g2, none, "RC5 addr=0x" ++ g1 ++ " cmd=0x" ++ g2⟩
  | none =>
  match searchTwo "Received RC6: address=0x" ", command=0x" isHexChar isHexChar line with
  | some (g1, g2) =>
    some ⟨"RC6", some g1, some g2, none, "RC6 addr=0x" ++ g1 ++ " cmd=0x" ++ g2⟩
  | none =>
  match searchTwo "Received LG: data=0x" ", nbits=" isHexChar isDecChar line with
  | some (g1, g2) =>
    some ⟨"LG", some g1, some g2, none, "LG data=0x" ++ g1 ++ " nbits=" ++ g2⟩
  | none =>
  match searchTwo "Received Panasonic: address=0x" ", command=0x" isHexChar isHexChar line with
  | some (g1, g2) =>
    some ⟨"Panasonic", some g1, some g2, none, "Panasonic addr=0x" ++ g1 ++ " cmd=0x" ++ g2⟩
  | none =>
  match searchOne "Received Pioneer: rc_code_1=0x" isHexChar line with
  | some g1 =>
    some ⟨"Pioneer", some g1, none, none, "Pioneer rc_code=0x" ++ g1⟩
  | none =>
  match searchOne "Received JVC: data=0x" isHexChar line with
  | some g1 =>
    some ⟨"JVC", none, some g1, none, "JVC data=0x" ++ g1⟩
  | none =>
  match searchTwo "Received Dish: address=0x" ", command=0x" isHexChar isHexChar line with
  | some (g1, g2) =>
    some ⟨"Dish", some g1, some g2, none, "Dish addr=0x" ++ g1 ++ " cmd=0x" ++ g2⟩
  | none =>
  match searchOne "Received Coolix: data=0x" isHexChar line with
  | some g1 =>
    some ⟨"Coolix", none, some g1, none, "Coolix data=0x" ++ g1⟩
  | none =>
  match searchPronto line with
  | some pronto_data =>
    let parts := pySplit pronto_data
    if 8 ≤ parts.length then
      some ⟨"Pronto", none, none, some pronto_data,
            "Pronto (" ++ toString parts.length ++ " words)"⟩
    else none
  | none => none

/-- `_PROTOCOL_PRIORITY.get(p, 99)` (lower = preferred). -/
def _PROTOCOL_PRIORITY (p : String) : Nat :=
  if p = "NEC" then 1
  else if p = "Samsung" then 2
  else if p = "Samsung36" then 2
  else if p = "Sony" then 3
  else if p = "RC5" then 4
  else if p = "RC6" then 5
  else if p = "LG" then 6
  else if p = "Panasonic" then 6
  else if p = "Pioneer" then 6
  else if p = "JVC" then 6
  else if p = "Dish" then 6
  else if p = "Coolix" then 6
  else if p = "Pronto" then 7
  else 99

/-- The sort key relation of `parsed.sort(key=...)`. -/
def obsLE (p q : ParsedObs) : Prop :=
  _PROTOCOL_PRIORITY p.protocol ≤ _PROTOCOL_PRIORITY q.protocol

instance : DecidableRel obsLE := fun p q => Nat.decLe _ _

/-- Result of `_parse_ir_logs` (the `dict` it returns, with the fields
the success and failure branches populate). -/
inductive ListenResult where
  | failure (error : String)
  | success (protocol : String) (address command raw_data pronto : Option String)
      (display : String)
deriving DecidableEq, Repr

/-- `_parse_ir_logs`: parse every line, fail when nothing parsed,
otherwise stable-sort by priority and report the head, with the first
Pronto of the sorted list kept as fallback.  Python `list.sort` is a
stable sort; any stable sort computes the same list, and it is embedded
as `List.insertionSort` (stable for a key-based total preorder). -/
def _parse_ir_logs (log_lines : List String) : ListenResult :=
  let parsed := log_lines.filterMap parse_ir_line
  match List.insertionSort obsLE parsed with
  | [] => .failure "IR signal detected but could not parse protocol."
  | best :: rest =>
    let pronto :=
      match (best :: rest).find? (fun p => p.protocol = "Pronto") with
      | some p => p.raw_data
      | none => none
    .success best.protocol best.address best.command best.raw_data
      (if best.protocol = "Pronto" then
        match pronto with
        | some x => if x ≠ "" then some x else best.raw_data
        | none => best.raw_data
      else pronto)
      best.display

/-- First element attaining the minimal priority — the specification-side
description of what a stable sort's head is. -/
def firstMinObs : List ParsedObs → Option ParsedObs
  | [] => none
  | a :: l =>
    match firstMinObs l with
    | none => some a
    | some b => if obsLE a b then some a else some b


/-! ### Shared concrete objects for witnesses -/

/-- A trivial external button database (no buttons recorded). -/
def dbEmpty : ButtonDb := fun _ => []

/-- Candidate group of the spec's narrowing scenario: `(NEC, 04, 08, ids=[1,2])`. -/
def candA : Candidate :=
  { protocol := "NEC", address := some "04 00", command := some "08 00",
    raw_data := none, device_ids := [1, 2], brands := ["Acme"] }

/-- Candidate group of the spec's narrowing scenario: `(NEC, 05, 09, ids=[3])`. -/
def candB : Candidate :=
  { protocol := "NEC", address := some "05 00", command := some "09 00",
    raw_data := none, device_ids := [3], brands := ["Acme"] }

/-- A session that has entered narrowing over `[candA, candB]`
(pool `[0, 1]`, first half `[0]` under test). -/
def narrowDemo : WizardSession :=
  { phase := .narrowing, power_candidates := [candA, candB],
    narrowing_pool := [0, 1], narrowing_tested := [0], narrowing_round := 1 }

/-- A default-constructed session (no candidates loaded). -/
def emptySession : WizardSession := {}

/-- A button record used to exhibit the missing duplicate check. -/
def muteButton : ButtonRec :=
  { button_name := "Mute", protocol := "NEC", address := some "04 00",
    command := some "01 00", raw_data := none }

/-- A session whose current button has the same name as an
already-confirmed button. -/
def dupSession : WizardSession :=
  { phase := .map_buttons,
    button_candidates := [muteButton],
    current_button_idx := 0,
    confirmed_buttons := [⟨"Mute", "NEC", some "04 00", some "01 00", none⟩] }

/-- The pool update computed at the top of `narrow_confirm`. -/
def poolUpdate (s : WizardSession) (worked : Bool) : List Nat :=
  if worked then s.narrowing_tested
  else s.narrowing_pool.filter (fun x => decide (x ∉ s.narrowing_tested))

/-- The tail of `narrow_confirm` after the pool update has been stored
into the session (a proof-side restatement; `narrow_confirm_eq` below
checks it is definitionally the source function). -/
def narrowAfter (db : ButtonDb) (s0 : WizardSession) : Option WizardSession :=
  if s0.narrowing_pool.length = 0 then
    _resolve_candidates_imprecise db s0
  else if s0.narrowing_pool.length = 1 then
    match s0.narrowing_pool.head? with
    | some i =>
      match s0.power_candidates[i]? with
      | some c => some (_resolve_candidate db s0 c)
      | none => none
    | none => none
  else
    some { s0 with
           narrowing_round := s0.narrowing_round + 1,
           narrowing_tested := s0.narrowing_pool.take (s0.narrowing_pool.length / 2) }

/-- The spec's capture scenario: one NEC line and one 3-token Pronto
line (noise). -/
def demoLines : List String :=
  ["Received NEC: address=0x1234, command=0x5678",
   "Received Pronto: data= a b c"]

/-- Run `narrow_confirm` up to `k` times with the answers of a user for
whom candidate `i` is the working one (worked iff `i` is in the tested
subset), stopping once the phase leaves `Narrowing`. -/
def runNarrow (db : ButtonDb) (i : Nat) : Nat → WizardSession → Option WizardSession
  | 0, s => some s
  | k + 1, s =>
    if s.phase = .narrowing then
      match narrow_confirm db s (decide (i ∈ s.narrowing_tested)) with
      | some s' => runNarrow db i k s'
      | none => none
    else some s

/-- The narrowing invariant for target candidate `i`: `i` is still in
the pool, `i` indexes a real candidate, and while narrowing continues
the tested subset is the prefix half of the pool. -/
def NarrowOk (i : Nat) (s : WizardSession) : Prop :=
  i ∈ s.narrowing_pool ∧ i < s.power_candidates.length ∧
  (s.phase = .narrowing →
    s.narrowing_tested = s.narrowing_pool.take (s.narrowing_pool.length / 2))

/-- A session about to bulk-blast two candidates. -/
def bulkDemo : WizardSession :=
  { phase := .identify, power_candidates := [candA, candB] }

/-! ### C1 — standard NEC conversion -/

set_option maxRecDepth 8192 in
/-- The two bytes of `_add_complement b` for a byte-sized input:
the low byte is `b` itself and the high byte is `~b & 0xFF = 255 - b`. -/
theorem add_complement_bytes :
    ∀ b < 256,
      _add_complement b = b ||| ((255 - b) <<< 8) ∧
      _add_complement b &&& 255 = b ∧
      (_add_complement b >>> 8) &&& 255 = 255 - b := by
  decide

/-- C1: on protocol "NEC", `convert_code` parses the first hex token of
the address and of the command as 1-byte values `A` and `C` and emits a
`send_ir_nec` command whose 16-bit fields are `_add_complement A` and
`_add_complement C`, i.e. `b | ((~b & 0xFF) << 8)`; the high byte of each
field is the complement `255 - lowByte = (~lowByte) & 0xFF`.  (The
scenario `convertCode("NEC", "04 00", "08 00") = (0xFB04, 0xF708)` is the
witness instance.) -/
theorem C1_nec_standard (a c : String) (r : Option String) (A C : Nat)
    (ha : _hex_bytes_to_int a 1 = some A) (hA : A < 256)
    (hc : _hex_bytes_to_int c 1 = some C) (hC : C < 256)
    (hta : a ≠ "") (htc : c ≠ "") :
    convert_code "NEC" (some a) (some c) r =
      .ok ⟨"send_ir_nec",
           [("address", .nat (_add_complement A)),
            ("command", .nat (_add_complement C))], 1⟩ ∧
    _add_complement A = A ||| ((255 - A) <<< 8) ∧
    _add_complement C = C ||| ((255 - C) <<< 8) ∧
    _add_complement A &&& 255 = A ∧
    (_add_complement A >>> 8) &&& 255 = 255 - (_add_complement A &&& 255) ∧
    _add_complement C &&& 255 = C ∧
    (_add_complement C >>> 8) &&& 255 = 255 - (_add_complement C &&& 255) := by
  obtain ⟨hA1, hA2, hA3⟩ := add_complement_bytes A hA
  obtain ⟨hC1, hC2, hC3⟩ := add_complement_bytes C hC
  refine ⟨?_, hA1, hC1, hA2, by rw [hA2, hA3], hC2, by rw [hC2, hC3]⟩
  have hred : convert_code "NEC" (some a) (some c) r =
      if truthy (some a) ∧ truthy (some c) then
        match _convert_nec a c with
        | some cmd => .ok cmd
        | none => .error
      else .unsupported := rfl
  rw [hred, if_pos ⟨by simp [truthy, hta], by simp [truthy, htc]⟩]
  simp [_convert_nec, ha, hc]

/-- Witness for C1 at the spec scenario: address `0xFB04`, command `0xF708`. -/
theorem C1_witness :
    _hex_bytes_to_int "04 00" 1 = some 4 ∧
    _hex_bytes_to_int "08 00" 1 = some 8 ∧
    convert_code "NEC" (some "04 00") (some "08 00") none =
      .ok ⟨"send_ir_nec", [("address", .nat 0xFB04), ("command", .nat 0xF708)], 1⟩ := by
  refine ⟨by decide, by decide, ?_⟩
  have h := C1_nec_standard "04 00" "08 00" none 4 8 (by decide) (by decide)
    (by decide) (by decide) (by decide) (by decide)
  exact h.1.trans (by decide)

/-! ### C2 — when `convert_code` returns no result -/

/-- Counterexample to C2: "Foobar" is unknown to the converter table and
a raw payload is supplied, yet the conversion still returns no result —
a raw payload is NOT sufficient for an arbitrary unknown protocol. -/
theorem C2_counterexample :
    convert_code "Foobar" none none (some "100 200") = .unsupported ∧
    protocolConverter? "Foobar" = none ∧
    truthy (some "100 200") = true :=
  ⟨by decide, rfl, by decide⟩

/-- C2 (amended): `convert_code` returns no result exactly when the raw
path does not apply (the protocol is not "Pronto" or "raw" with a truthy
raw payload) and either the protocol is the raw-only "RCMM" without a
raw payload, or it is any other protocol that is absent from the
converter table or lacks a truthy address or command.  A raw payload
rescues only "Pronto", "raw" and "RCMM". -/
theorem C2_amended (p : String) (a c r : Option String) :
    convert_code p a c r = .unsupported ↔
      (¬(p = "Pronto" ∧ truthy r) ∧ ¬(p = "raw" ∧ truthy r) ∧
       ((p = "RCMM" ∧ ¬ truthy r) ∨
        (p ≠ "RCMM" ∧
          ((protocolConverter? p).isNone ∨ ¬ truthy a ∨ ¬ truthy c)))) := by
  unfold convert_code
  by_cases h1 : p = "Pronto" ∧ truthy r
  · simp [h1]
  · rw [if_neg h1]
    by_cases h2 : p = "raw" ∧ truthy r
    · rw [if_pos h2]
      cases hr : _convert_raw (r.getD "") <;> simp [h1, h2]
    · rw [if_neg h2]
      by_cases h3 : p = "RCMM"
      · rw [if_pos h3]
        by_cases h4 : truthy r
        · rw [if_pos h4]
          cases hr : _convert_raw (r.getD "") <;> simp [h1, h2, h3, h4]
        · rw [if_neg h4]
          simp [h1, h2, h3, h4]
      · rw [if_neg h3]
        cases hcv : protocolConverter? p with
        | none => simp [h1, h2, h3, hcv]
        | some conv =>
          dsimp only
          by_cases h5 : truthy a ∧ truthy c
          · rw [if_pos h5]
            cases hr : conv (a.getD "") (c.getD "") <;>
              simp [h1, h2, h3, hcv, h5.1, h5.2]
          · rw [if_neg h5]
            rw [Decidable.not_and_iff_or_not] at h5
            rcases h5 with h5 | h5 <;> simp [h1, h2, h3, hcv, h5]

/-- Witness for C2 (amended): "RCMM" without raw data is unsupported. -/
theorem C2_witness :
    convert_code "RCMM" none none none = .unsupported :=
  (C2_amended "RCMM" none none none).mpr
    ⟨by simp [truthy], by simp [truthy], Or.inl ⟨rfl, by simp [truthy]⟩⟩

/-! ### C9 — `convert_code` is not total: uncaught parse exceptions -/

/-- C9: a protocol present in the converter table with non-empty address
and command can still raise an uncaught `ValueError` instead of
returning a command or the unsupported failure: "Samsung36" applies
`int(·, 16)` to the whole space-separated byte string "07 00", and any
converter fed a non-hex token ("zz") fails the same way. -/
theorem C9_uncaught_valueerror :
    convert_code "Samsung36" (some "07 00") (some "04 00") none = .error ∧
    (protocolConverter? "Samsung36").isSome = true ∧
    convert_code "NEC" (some "zz") (some "04 00") none = .error :=
  ⟨by decide, rfl, by decide⟩

/-! ### C10 — `confirm_bulk_blast` on an empty candidate list -/

/-- C10: `confirm_bulk_blast` with `worked = true` on a session with no
power candidates takes the single-candidate branch and raises an
uncaught `IndexError` from `power_candidates[0]` (modelled as `none`). -/
theorem C10_bulk_blast_empty (db : ButtonDb) (s : WizardSession)
    (h : s.power_candidates = []) :
    confirm_bulk_blast db s true = none := by
  simp [confirm_bulk_blast, h]

/-- Witness for C10 on the default-constructed session. -/
theorem C10_witness :
    emptySession.power_candidates = [] ∧
    confirm_bulk_blast dbEmpty emptySession true = none :=
  ⟨rfl, C10_bulk_blast_empty dbEmpty emptySession rfl⟩

/-! ### C7 — `confirm_button` and duplicate names -/

/-- Counterexample to C7: `confirm_button` with `worked = true` appends
the current button even though an entry of the same name is present, so
`confirmed_buttons` ends with two entries named "Mute". -/
theorem C7_counterexample :
    (confirm_button dupSession true).confirmed_buttons.map ConfirmedButton.name =
      ["Mute", "Mute"] ∧
    ¬ ((confirm_button dupSession true).confirmed_buttons.map
        ConfirmedButton.name).Nodup := by
  decide


/-- C7 (amended): `confirm_button` appends the current button exactly
when `worked` is true and a current button exists — unconditionally,
with no duplicate-name check at the point of insertion — then advances
the cursor by one and moves to `Results` on cursor exhaustion; duplicate
names in `confirmed_buttons` are therefore possible. -/
theorem C7_amended (s : WizardSession) (w : Bool) :
    (confirm_button s w).confirmed_buttons =
      s.confirmed_buttons ++
        (match s.current_button with
         | some b =>
           if w then [(⟨b.button_name, b.protocol, b.address, b.command,
                        b.raw_data⟩ : ConfirmedButton)]
           else []
         | none => []) ∧
    (confirm_button s w).current_button_idx = s.current_button_idx + 1 ∧
    (confirm_button s w).phase =
      (if s.button_candidates.length ≤ s.current_button_idx + 1 then .results
       else s.phase) ∧
    (confirm_button s w).button_candidates = s.button_candidates := by
  unfold confirm_button
  cases hb : s.current_button <;> cases w <;>
    by_cases hlen : s.button_candidates.length ≤ s.current_button_idx + 1 <;>
      simp [hb, hlen]

/-- Witness for C7 (amended), at the duplicate-producing session. -/
theorem C7_witness :
    (confirm_button dupSession true).confirmed_buttons =
      dupSession.confirmed_buttons ++
        [(⟨"Mute", "NEC", some "04 00", some "01 00", none⟩ : ConfirmedButton)] := by
  have h := (C7_amended dupSession true).1
  rw [h]
  decide

/-! ### C8 — the session TTL -/

/-- A key absent from the store looks up to `none`. -/
theorem lookupSession_eq_none (st : SessionStore) (sid : String)
    (h : sid ∉ st.map Prod.fst) : lookupSession st sid = none := by
  induction st with
  | nil => rfl
  | cons kv t ih =>
    simp only [List.map_cons, List.mem_cons] at h
    push_neg at h
    unfold lookupSession
    rw [if_neg (fun hc => h.1 hc.symm)]
    exact ih h.2

/-- Replacing the binding of one key leaves other keys' lookups alone. -/
theorem lookupSession_mapset (st : SessionStore) (k k' : String)
    (v : WizardSession) (h : k' ≠ k) :
    lookupSession (st.map (fun kv => if kv.1 = k then (k, v) else kv)) k' =
      lookupSession st k' := by
  induction st with
  | nil => rfl
  | cons kv t ih =>
    by_cases hk : kv.1 = k
    · have h1 : ¬ (k = k') := fun hc => h hc.symm
      have h2 : ¬ (kv.1 = k') := by rw [hk]; exact h1
      simp only [List.map_cons, if_pos hk]
      unfold lookupSession
      rw [if_neg h1, if_neg h2]
      exact ih
    · simp only [List.map_cons, if_neg hk]
      unfold lookupSession
      by_cases h2 : kv.1 = k'
      · rw [if_pos h2, if_pos h2]
      · rw [if_neg h2, if_neg h2]
        exact ih

/-- Appending a binding for another key leaves a key's lookup alone. -/
theorem lookupSession_append_single (st : SessionStore) (k k' : String)
    (v : WizardSession) (h : k' ≠ k) :
    lookupSession (st ++ [(k, v)]) k' = lookupSession st k' := by
  induction st with
  | nil =>
    show lookupSession [(k, v)] k' = none
    unfold lookupSession
    rw [if_neg (fun hc => h hc.symm)]
    rfl
  | cons kv t ih =>
    show lookupSession (kv :: (t ++ [(k, v)])) k' = _
    unfold lookupSession
    by_cases h2 : kv.1 = k'
    · rw [if_pos h2, if_pos h2]
    · rw [if_neg h2, if_neg h2]
      exact ih

/-- `setSession` at one key leaves other keys' lookups alone. -/
theorem lookupSession_set_ne (st : SessionStore) (k k' : String)
    (v : WizardSession) (h : k' ≠ k) :
    lookupSession (setSession st k v) k' = lookupSession st k' := by
  unfold setSession
  split
  · exact lookupSession_mapset st k k' v h
  · exact lookupSession_append_single st k k' v h

/-- Unfolding equation for `lookupSession` on a cons cell. -/
theorem lookupSession_cons (kv : String × WizardSession) (t : SessionStore)
    (sid : String) :
    lookupSession (kv :: t) sid =
      if kv.1 = sid then some kv.2 else lookupSession t sid := rfl

/-- Lookup in a filtered store with `Nodup` keys: the unique binding
survives iff it passes the filter. -/
theorem lookupSession_filter (st : SessionStore) (sid : String)
    (p : String × WizardSession → Bool)
    (hkeys : (st.map Prod.fst).Nodup) (s : WizardSession) :
    lookupSession (st.filter p) sid = some s ↔
      (lookupSession st sid = some s ∧ p (sid, s) = true) := by
  induction st with
  | nil => simp [lookupSession]
  | cons kv t ih =>
    simp only [List.map_cons, List.nodup_cons] at hkeys
    by_cases hk : kv.1 = sid
    · have hnone : lookupSession t sid = none :=
        lookupSession_eq_none t sid (hk ▸ hkeys.1)
      cases hp : p kv with
      | false =>
        rw [List.filter_cons_of_neg (by simp [hp])]
        constructor
        · intro hmem
          have h2 := (ih hkeys.2).mp hmem
          rw [hnone] at h2
          exact absurd h2.1 (by simp)
        · rintro ⟨h1, h2⟩
          rw [lookupSession_cons, if_pos hk] at h1
          injection h1 with h1
          have hkv : (sid, s) = kv := by rw [← h1, ← hk]
          rw [hkv, hp] at h2
          exact absurd h2 (by simp)
      | true =>
        rw [List.filter_cons_of_pos hp, lookupSession_cons, lookupSession_cons,
          if_pos hk, if_pos hk]
        constructor
        · intro h1
          refine ⟨h1, ?_⟩
          injection h1 with h1
          have hkv : (sid, s) = kv := by rw [← h1, ← hk]
          rw [hkv]
          exact hp
        · rintro ⟨h1, _⟩
          exact h1
    · cases hp : p kv with
      | false =>
        rw [List.filter_cons_of_neg (by simp [hp]), lookupSession_cons, if_neg hk]
        exact ih hkeys.2
      | true =>
        rw [List.filter_cons_of_pos hp, lookupSession_cons, lookupSession_cons,
          if_neg hk, if_neg hk]
        exact ih hkeys.2

/-- Counterexample to C8: a session created at time 0 and operated on
later (say at time 7000 — engine operations carry no clock and never
touch `created_at`, so the operation's wall time is immaterial) is
unreachable at time 7201, even though its most recent operation lies
well within the 2-hour TTL; reachability depends only on creation age. -/
theorem C8_counterexample :
    ((store_set_device_type (create_session [] 0 "s") "s" "TV").map
        (fun st1 => (get_session st1 7201 "s").2)) = some none ∧
    ((store_set_device_type (create_session [] 0 "s") "s" "TV").map
        (fun st1 => (lookupSession st1 "s").map WizardSession.created_at)) =
      some (some 0) ∧
    7201 - 7000 ≤ SESSION_TTL := by
  refine ⟨?_, ?_, by decide⟩ <;> decide

/-- C8 (amended): a session is destroyed exactly when its CREATION time
is more than the 2-hour TTL in the past: `get_session` returns a stored
session iff `now - created_at ≤ SESSION_TTL`, and `create_session`
purges exactly the stored sessions older than that.  Idle time since the
last operation plays no role, because operations never refresh
`created_at`. -/
theorem C8_amended (st : SessionStore) (now : Nat) (sid sid' : String)
    (hkeys : (st.map Prod.fst).Nodup) (hne : sid ≠ sid') :
    (∀ s, (get_session st now sid).2 = some s ↔
       (lookupSession st sid = some s ∧ now - s.created_at ≤ SESSION_TTL)) ∧
    (∀ s, lookupSession (create_session st now sid') sid = some s ↔
       (lookupSession st sid = some s ∧ now - s.created_at ≤ SESSION_TTL)) := by
  constructor
  · intro s
    unfold get_session
    cases hl : lookupSession st sid with
    | none => simp [hl]
    | some s0 =>
      simp only [hl]
      by_cases hT : SESSION_TTL < now - s0.created_at
      · rw [if_pos hT]
        constructor
        · intro h
          exact absurd h (by simp)
        · rintro ⟨h1, h2⟩
          injection h1 with h1
          rw [h1] at hT
          omega
      · rw [if_neg hT]
        constructor
        · intro h
          have h' : some s0 = some s := h
          injection h' with h'
          exact ⟨by rw [h'], by rw [← h']; omega⟩
        · rintro ⟨h1, _⟩
          have h1' : s0 = s := by injection h1
          show (st, some s0).2 = some s
          rw [h1']
  · intro s
    unfold create_session
    rw [lookupSession_set_ne _ sid' sid _ hne]
    unfold _evict_stale
    rw [lookupSession_filter st sid _ hkeys s]
    simp only [decide_eq_true_eq]
    constructor
    · rintro ⟨h1, h2⟩
      exact ⟨h1, by omega⟩
    · rintro ⟨h1, h2⟩
      exact ⟨h1, by omega⟩

/-- Witness for C8 (amended): concrete store, stale by age alone. -/
theorem C8_witness :
    (get_session [("a", WizardSession.new 0)] 7201 "a").2 = none ∧
    lookupSession (create_session [("a", WizardSession.new 0)] 7201 "b") "a" = none := by
  have h := C8_amended [("a", WizardSession.new 0)] 7201 "a" "b"
    (by decide) (by decide)
  have hval : lookupSession [("a", WizardSession.new 0)] "a" =
      some (WizardSession.new 0) := rfl
  constructor
  · cases hg : (get_session [("a", WizardSession.new 0)] 7201 "a").2 with
    | none => rfl
    | some s =>
      have h2 := (h.1 s).mp hg
      have h3 := h2.1.symm.trans hval
      injection h3 with h3
      have h4 := h2.2
      rw [h3] at h4
      exact absurd h4 (by decide)
  · cases hg : lookupSession (create_session [("a", WizardSession.new 0)] 7201 "b") "a" with
    | none => rfl
    | some s =>
      have h2 := (h.2 s).mp hg
      have h3 := h2.1.symm.trans hval
      injection h3 with h3
      have h4 := h2.2
      rw [h3] at h4
      exact absurd h4 (by decide)

/-! ### C3 / C6 — narrowing invariants and the empty-pool fallback -/

/-- `_load_button_candidates` only writes the button fields. -/
theorem load_narrowing_pool (db : ButtonDb) (x : WizardSession) :
    (_load_button_candidates db x).narrowing_pool = x.narrowing_pool := rfl

/-- `_load_button_candidates` preserves the tested subset. -/
theorem load_narrowing_tested (db : ButtonDb) (x : WizardSession) :
    (_load_button_candidates db x).narrowing_tested = x.narrowing_tested := rfl

/-- `_load_button_candidates` preserves the phase. -/
theorem load_phase (db : ButtonDb) (x : WizardSession) :
    (_load_button_candidates db x).phase = x.phase := rfl

/-- `_load_button_candidates` preserves the confirmed buttons. -/
theorem load_confirmed (db : ButtonDb) (x : WizardSession) :
    (_load_button_candidates db x).confirmed_buttons = x.confirmed_buttons := rfl

/-- `_load_button_candidates` preserves the candidate list. -/
theorem load_power_candidates (db : ButtonDb) (x : WizardSession) :
    (_load_button_candidates db x).power_candidates = x.power_candidates := rfl

/-- `_load_button_candidates` preserves the matched device ids. -/
theorem load_matched (db : ButtonDb) (x : WizardSession) :
    (_load_button_candidates db x).matched_device_ids = x.matched_device_ids := rfl

/-- `_load_button_candidates` preserves the matched brand. -/
theorem load_matched_brand (db : ButtonDb) (x : WizardSession) :
    (_load_button_candidates db x).matched_brand = x.matched_brand := rfl

/-- `narrow_confirm` factors through `poolUpdate` and `narrowAfter`. -/
theorem narrow_confirm_eq (db : ButtonDb) (s : WizardSession) (worked : Bool) :
    narrow_confirm db s worked =
      narrowAfter db { s with narrowing_pool := poolUpdate s worked } := rfl

/-- What every successful `narrowAfter` leaves invariant, and where the
tested subset stands when the phase is still `Narrowing`. -/
theorem narrowAfter_spec (db : ButtonDb) (s0 s' : WizardSession)
    (h : narrowAfter db s0 = some s') :
    s'.narrowing_pool = s0.narrowing_pool ∧
    s'.power_candidates = s0.power_candidates ∧
    (s'.phase = .narrowing →
      s'.narrowing_tested = s'.narrowing_pool.take (s'.narrowing_pool.length / 2)) := by
  unfold narrowAfter at h
  split at h
  · simp only [_resolve_candidates_imprecise] at h
    cases hhd : s0.power_candidates.head? with
    | none => rw [hhd] at h; exact absurd h (by simp)
    | some first =>
      rw [hhd] at h
      injection h with h
      subst h
      refine ⟨rfl, rfl, ?_⟩
      intro hc
      rw [load_phase] at hc
      exact absurd hc (by simp)
  · split at h
    · cases hhd : s0.narrowing_pool.head? with
      | none => rw [hhd] at h; exact absurd h (by simp)
      | some i =>
        rw [hhd] at h
        dsimp only at h
        cases hc : s0.power_candidates[i]? with
        | none => rw [hc] at h; exact absurd h (by simp)
        | some c =>
          rw [hc] at h
          injection h with h
          subst h
          refine ⟨rfl, rfl, ?_⟩
          intro hph
          rw [_resolve_candidate, load_phase] at hph
          exact absurd hph (by simp)
    · injection h with h
      subst h
      exact ⟨rfl, rfl, fun _ => rfl⟩

/-- The filtered pool only keeps elements of the dropped half when the
tested subset is the taken prefix. -/
theorem filter_not_tested_eq (pool tested : List Nat)
    (ht : tested = pool.take (pool.length / 2)) :
    pool.filter (fun x => decide (x ∉ tested)) =
      (pool.drop (pool.length / 2)).filter (fun x => decide (x ∉ tested)) := by
  conv_lhs => rw [← List.take_append_drop (pool.length / 2) pool]
  rw [List.filter_append]
  have hnil : (pool.take (pool.length / 2)).filter
      (fun x => decide (x ∉ tested)) = [] := by
    rw [List.filter_eq_nil_iff]
    intro a ha
    simp only [decide_eq_true_eq, Decidable.not_not]
    rw [ht]
    exact ha
  rw [hnil, List.nil_append]

/-- The pool update of one narrowing round strictly shrinks a pool of at
least two elements whose tested subset is the prefix half. -/
theorem narrow_pool_shrinks (s : WizardSession) (w : Bool)
    (ht : s.narrowing_tested = s.narrowing_pool.take (s.narrowing_pool.length / 2))
    (hlen : 2 ≤ s.narrowing_pool.length) :
    (poolUpdate s w).length < s.narrowing_pool.length := by
  cases w
  · rw [poolUpdate, if_neg (by simp)]
    rw [filter_not_tested_eq s.narrowing_pool s.narrowing_tested ht]
    have h1 := List.length_filter_le (fun x => decide (x ∉ s.narrowing_tested))
      (s.narrowing_pool.drop (s.narrowing_pool.length / 2))
    rw [List.length_drop] at h1
    have h2 : 0 < s.narrowing_pool.length / 2 := Nat.div_pos hlen (by omega)
    omega
  · rw [poolUpdate, if_pos rfl, ht, List.length_take]
    have hd : s.narrowing_pool.length / 2 < s.narrowing_pool.length :=
      Nat.div_lt_self (by omega) (by omega)
    omega

/-- C3: one `narrow_confirm` round, in the Narrowing phase with
`testedSubset` the prefix half of `pool`, sets the pool to the tested
subset when the answer is "worked" and to the pool minus the tested
subset otherwise; the tested subset is a subset of the pool, the pool
strictly shrinks, and whenever another round starts the new tested
subset is again the prefix half of the shrunk pool (hence again a
subset of it). -/
theorem C3_narrow_invariants (db : ButtonDb) (s s' : WizardSession) (w : Bool)
    (hph : s.phase = .narrowing)
    (ht : s.narrowing_tested = s.narrowing_pool.take (s.narrowing_pool.length / 2))
    (hlen : 2 ≤ s.narrowing_pool.length)
    (h : narrow_confirm db s w = some s') :
    s.narrowing_tested ⊆ s.narrowing_pool ∧
    s'.narrowing_pool =
      (if w then s.narrowing_tested
       else s.narrowing_pool.filter (fun x => decide (x ∉ s.narrowing_tested))) ∧
    s'.narrowing_pool.length < s.narrowing_pool.length ∧
    (s'.phase = .narrowing →
      s'.narrowing_tested = s'.narrowing_pool.take (s'.narrowing_pool.length / 2) ∧
      s'.narrowing_tested ⊆ s'.narrowing_pool) := by
  have hsub : s.narrowing_tested ⊆ s.narrowing_pool := by
    rw [ht]; exact List.take_subset _ _
  rw [narrow_confirm_eq] at h
  obtain ⟨hp, _, htested'⟩ := narrowAfter_spec db _ s' h
  have hp' : s'.narrowing_pool = poolUpdate s w := hp
  have hshrink := narrow_pool_shrinks s w ht hlen
  refine ⟨hsub, ?_, ?_, ?_⟩
  · rw [hp']; rfl
  · rw [hp']; exact hshrink
  · intro hph'
    exact ⟨htested' hph', by rw [htested' hph']; exact List.take_subset _ _⟩

/-- Witness for C3: the spec scenario — pool `[0, 1]`, tested `[0]`,
answer "no" narrows the pool to `[1]`. -/
theorem C3_witness :
    ∃ s', narrow_confirm dbEmpty narrowDemo false = some s' ∧
      s'.narrowing_pool.length < narrowDemo.narrowing_pool.length ∧
      s'.narrowing_pool =
        narrowDemo.narrowing_pool.filter
          (fun x => decide (x ∉ narrowDemo.narrowing_tested)) := by
  cases hcall : narrow_confirm dbEmpty narrowDemo false with
  | none => exact absurd hcall (by decide)
  | some s' =>
    have h := C3_narrow_invariants dbEmpty narrowDemo s' false rfl (by decide)
      (by decide) hcall
    exact ⟨s', rfl, h.2.2.1, h.2.1⟩

/-- The running fold of `minStr` stays among the candidate elements. -/
theorem foldl_minStr_mem (xs : List String) :
    ∀ acc : String,
      xs.foldl (fun a b => if strLe a b then a else b) acc ∈ acc :: xs := by
  induction xs with
  | nil => intro acc; simp
  | cons x t ih =>
    intro acc
    simp only [List.foldl_cons]
    by_cases hle : strLe acc x
    · rw [if_pos hle]
      rcases List.mem_cons.mp (ih acc) with h | h
      · exact List.mem_cons.mpr (Or.inl h)
      · exact List.mem_cons.mpr (Or.inr (List.mem_cons.mpr (Or.inr h)))
    · rw [if_neg hle]
      rcases List.mem_cons.mp (ih x) with h | h
      · exact List.mem_cons.mpr (Or.inr (List.mem_cons.mpr (Or.inl h)))
      · exact List.mem_cons.mpr (Or.inr (List.mem_cons.mpr (Or.inr h)))

/-- `minStr` of a non-empty list is one of its elements. -/
theorem minStr_mem (l : List String) (h : l ≠ []) : minStr l ∈ l := by
  cases l with
  | nil => exact absurd rfl h
  | cons a t => simpa [minStr] using foldl_minStr_mem t a

/-- C6: whenever a `narrow_confirm` round leaves the pool empty (and
candidates were loaded), the session resolves from ALL candidates
instead of raising: the matched device ids are exactly the union of
every candidate's device ids, the matched brand is drawn from the union
of all candidates' brands (when any exist), the first candidate's code
is appended to `confirmed_buttons` as the "Power" button, and the phase
advances to `MapButtons`. -/
theorem C6_empty_pool_fallback (db : ButtonDb) (s : WizardSession) (w : Bool)
    (hpool : poolUpdate s w = [])
    (hcand : s.power_candidates ≠ []) :
    ∃ s', narrow_confirm db s w = some s' ∧
      s'.phase = .map_buttons ∧
      (∀ d, d ∈ s'.matched_device_ids ↔
        ∃ c ∈ s.power_candidates, d ∈ c.device_ids) ∧
      ((∃ c ∈ s.power_candidates, c.brands ≠ []) →
        ∃ c ∈ s.power_candidates, s'.matched_brand ∈ c.brands) ∧
      (∃ c0, s.power_candidates.head? = some c0 ∧
        s'.confirmed_buttons = s.confirmed_buttons ++ [powerButtonOf c0]) := by
  obtain ⟨c0, cs, hcs⟩ := List.exists_cons_of_ne_nil hcand
  have hhd : s.power_candidates.head? = some c0 := by rw [hcs]; rfl
  rw [narrow_confirm_eq]
  unfold narrowAfter
  rw [show ({ s with narrowing_pool := poolUpdate s w } : WizardSession).narrowing_pool
      = poolUpdate s w from rfl, hpool]
  simp only [List.length_nil, if_pos]
  simp only [_resolve_candidates_imprecise]
  rw [show ({ s with narrowing_pool := ([] : List Nat) }
        : WizardSession).power_candidates.head? = s.power_candidates.head? from rfl,
     hhd]
  dsimp only
  refine ⟨_, rfl, ?_, ?_, ?_, ?_⟩
  · rw [load_phase]
  · intro d
    rw [load_matched]
    dsimp only
    rw [List.mem_dedup, List.mem_flatten]
    constructor
    · rintro ⟨l, hl, hd⟩
      rcases List.mem_map.mp hl with ⟨c, hc, rfl⟩
      exact ⟨c, hc, hd⟩
    · rintro ⟨c, hc, hd⟩
      exact ⟨c.device_ids, List.mem_map_of_mem _ hc, hd⟩
  · intro hbr
    rw [load_matched_brand]
    dsimp only
    obtain ⟨c, hc, hb⟩ := hbr
    obtain ⟨b0, bs, hbcs⟩ := List.exists_cons_of_ne_nil hb
    have hball : (s.power_candidates.map Candidate.brands).flatten ≠ [] := by
      have : b0 ∈ (s.power_candidates.map Candidate.brands).flatten := by
        rw [List.mem_flatten]
        exact ⟨c.brands, List.mem_map_of_mem _ hc,
               by rw [hbcs]; exact List.mem_cons_self _ _⟩
      exact List.ne_nil_of_mem this
    rw [if_neg hball]
    have hm := minStr_mem _ hball
    rw [List.mem_flatten] at hm
    obtain ⟨l, hl, hmem⟩ := hm
    rcases List.mem_map.mp hl with ⟨c', hc', rfl⟩
    exact ⟨c', hc', hmem⟩
  · exact ⟨c0, rfl, by rw [load_confirmed]⟩

/-- Witness for C6: both candidates rejected — the pool is emptied and
the session resolves imprecisely from all candidates. -/
theorem C6_witness :
    ∃ s', narrow_confirm dbEmpty
        { narrowDemo with narrowing_pool := [1], narrowing_tested := [1] }
        false = some s' ∧
      s'.phase = .map_buttons ∧
      (∃ c ∈ ({ narrowDemo with narrowing_pool := [1], narrowing_tested := [1] }
          : WizardSession).power_candidates, s'.matched_brand ∈ c.brands) := by
  obtain ⟨s', hcall, hph, _, hbr, _⟩ := C6_empty_pool_fallback dbEmpty
    { narrowDemo with narrowing_pool := [1], narrowing_tested := [1] } false
    (by decide) (by decide)
  exact ⟨s', hcall, hph, hbr ⟨candA, by decide, by decide⟩⟩

/-! ### C5 — signal disambiguation -/

/-- The head of an ordered insert: the inserted element wins exactly
when its key is no larger than the old head's. -/
theorem head?_orderedInsert (a : ParsedObs) (l : List ParsedObs) :
    (List.orderedInsert obsLE a l).head? =
      some (match l.head? with
            | none => a
            | some b => if obsLE a b then a else b) := by
  cases l with
  | nil => rfl
  | cons b t =>
    show (if obsLE a b then a :: b :: t else b :: List.orderedInsert obsLE a t).head? =
      some (if obsLE a b then a else b)
    by_cases h : obsLE a b
    · rw [if_pos h, if_pos h]; rfl
    · rw [if_neg h, if_neg h]; rfl

/-- The head of the stable sort is the first minimal-priority element. -/
theorem head?_insertionSort (l : List ParsedObs) :
    (List.insertionSort obsLE l).head? = firstMinObs l := by
  induction l with
  | nil => rfl
  | cons a t ih =>
    show (List.orderedInsert obsLE a (List.insertionSort obsLE t)).head? = _
    rw [head?_orderedInsert, ih]
    cases hf : firstMinObs t with
    | none => simp [firstMinObs, hf]
    | some c =>
      simp only [firstMinObs, hf]
      by_cases h : obsLE a c <;> simp [h]

/-- `firstMinObs` of a non-empty list exists. -/
theorem firstMinObs_isSome (a : ParsedObs) (t : List ParsedObs) :
    ∃ b, firstMinObs (a :: t) = some b := by
  cases hft : firstMinObs t with
  | none => exact ⟨a, by simp [firstMinObs, hft]⟩
  | some c =>
    by_cases h : obsLE a c
    · exact ⟨a, by simp [firstMinObs, hft, h]⟩
    · exact ⟨c, by simp [firstMinObs, hft, h]⟩

/-- `firstMinObs` really is the first element attaining the minimal
priority: it is a member, no member has smaller priority, and every
member strictly before it has strictly larger priority. -/
theorem firstMinObs_spec (l : List ParsedObs) :
    ∀ b, firstMinObs l = some b →
      b ∈ l ∧
      (∀ q ∈ l, _PROTOCOL_PRIORITY b.protocol ≤ _PROTOCOL_PRIORITY q.protocol) ∧
      ∃ l₁ l₂, l = l₁ ++ b :: l₂ ∧
        ∀ q ∈ l₁, _PROTOCOL_PRIORITY b.protocol < _PROTOCOL_PRIORITY q.protocol := by
  induction l with
  | nil => intro b h; exact absurd h (by simp [firstMinObs])
  | cons a t ih =>
    intro b h
    simp only [firstMinObs] at h
    cases hf : firstMinObs t with
    | none =>
      rw [hf] at h
      injection h with h
      subst h
      have ht : t = [] := by
        cases t with
        | nil => rfl
        | cons x u =>
          obtain ⟨b', hb'⟩ := firstMinObs_isSome x u
          rw [hb'] at hf
          exact absurd hf (by simp)
      subst ht
      refine ⟨List.mem_cons_self _ _, ?_, [], [], rfl, by simp⟩
      intro q hq
      rw [List.mem_singleton.mp hq]
    | some c =>
      rw [hf] at h
      dsimp only at h
      obtain ⟨hc_mem, hc_min, l₁, l₂, hsplit, hlt⟩ := ih c hf
      by_cases hle : obsLE a c
      · rw [if_pos hle] at h
        injection h with h
        subst h
        refine ⟨List.mem_cons_self _ _, ?_, [], t, rfl, by simp⟩
        intro q hq
        rcases List.mem_cons.mp hq with rfl | hq
        · exact le_rfl
        · exact le_trans hle (hc_min q hq)
      · rw [if_neg hle] at h
        injection h with h
        subst h
        have hlt_ac : _PROTOCOL_PRIORITY c.protocol < _PROTOCOL_PRIORITY a.protocol := by
          unfold obsLE at hle
          omega
        refine ⟨List.mem_cons_of_mem _ hc_mem, ?_, a :: l₁, l₂,
          by rw [hsplit]; rfl, ?_⟩
        · intro q hq
          rcases List.mem_cons.mp hq with rfl | hq
          · exact le_of_lt hlt_ac
          · exact hc_min q hq
        · intro q hq
          rcases List.mem_cons.mp hq with rfl | hq
          · exact hlt_ac
          · exact hlt q hq

/-- Every Pronto observation surviving `parse_ir_line` carries a payload
of at least 8 whitespace tokens (shorter ones are discarded as noise). -/
theorem parse_ir_line_pronto_tokens (line : String) (p : ParsedObs)
    (hp : parse_ir_line line = some p) (hprot : p.protocol = "Pronto") :
    ∃ raw, p.raw_data = some raw ∧ 8 ≤ (pySplit raw).length := by
  simp only [parse_ir_line] at hp
  repeat' split at hp
  all_goals
    first
    | exact Option.noConfusion hp
    | (injection hp with hp; subst hp;
       first
       | exact ⟨_, rfl, by assumption⟩
       | simp at hprot)

/-- C5: `_parse_ir_logs` parses each line against the per-protocol
grammars; surviving Pronto observations have at least 8 tokens; when
anything parsed, the reported observation is the first one (in original
observation order) attaining the numerically lowest protocol priority,
with the priority table NEC=1, Samsung=Samsung36=2, Sony=3, RC5=4,
RC6=5, LG=Panasonic=Pioneer=JVC=Dish=Coolix=6, Pronto=7; when no line
parses (or all were noise-filtered) the result is the
`NoParsableSignal` failure. -/
theorem C5_disambiguation (lines : List String) :
    (_parse_ir_logs lines = .failure "IR signal detected but could not parse protocol." ↔
      lines.filterMap parse_ir_line = []) ∧
    (∀ p ∈ lines.filterMap parse_ir_line, p.protocol = "Pronto" →
      ∃ raw, p.raw_data = some raw ∧ 8 ≤ (pySplit raw).length) ∧
    (lines.filterMap parse_ir_line ≠ [] →
      ∃ best, firstMinObs (lines.filterMap parse_ir_line) = some best) ∧
    (∀ best, firstMinObs (lines.filterMap parse_ir_line) = some best →
      (∃ pronto, _parse_ir_logs lines =
        .success best.protocol best.address best.command best.raw_data pronto
          best.display) ∧
      best ∈ lines.filterMap parse_ir_line ∧
      (∀ q ∈ lines.filterMap parse_ir_line,
        _PROTOCOL_PRIORITY best.protocol ≤ _PROTOCOL_PRIORITY q.protocol) ∧
      ∃ l₁ l₂, lines.filterMap parse_ir_line = l₁ ++ best :: l₂ ∧
        ∀ q ∈ l₁,
          _PROTOCOL_PRIORITY best.protocol < _PROTOCOL_PRIORITY q.protocol) ∧
    (_PROTOCOL_PRIORITY "NEC" = 1 ∧ _PROTOCOL_PRIORITY "Samsung" = 2 ∧
     _PROTOCOL_PRIORITY "Samsung36" = 2 ∧ _PROTOCOL_PRIORITY "Sony" = 3 ∧
     _PROTOCOL_PRIORITY "RC5" = 4 ∧ _PROTOCOL_PRIORITY "RC6" = 5 ∧
     _PROTOCOL_PRIORITY "LG" = 6 ∧ _PROTOCOL_PRIORITY "Panasonic" = 6 ∧
     _PROTOCOL_PRIORITY "Pioneer" = 6 ∧ _PROTOCOL_PRIORITY "JVC" = 6 ∧
     _PROTOCOL_PRIORITY "Dish" = 6 ∧ _PROTOCOL_PRIORITY "Coolix" = 6 ∧
     _PROTOCOL_PRIORITY "Pronto" = 7) := by
  have hperm := List.perm_insertionSort obsLE (lines.filterMap parse_ir_line)
  refine ⟨?_, ?_, ?_, ?_, ?_⟩
  · simp only [_parse_ir_logs]
    cases hs : List.insertionSort obsLE (lines.filterMap parse_ir_line) with
    | nil =>
      rw [hs] at hperm
      have hnil := hperm.nil_eq
      constructor
      · intro _; exact hnil.symm
      · intro _; rfl
    | cons b rest =>
      rw [hs] at hperm
      constructor
      · intro hfail; exact absurd hfail (by simp)
      · intro hc
        rw [hc] at hperm
        exact absurd hperm.eq_nil (by simp)
  · intro p hp hprot
    rcases List.mem_filterMap.mp hp with ⟨line, _, hline⟩
    exact parse_ir_line_pronto_tokens line p hline hprot
  · intro hne
    cases hl : lines.filterMap parse_ir_line with
    | nil => exact absurd hl hne
    | cons a t =>
      obtain ⟨b, hb⟩ := firstMinObs_isSome a t
      exact ⟨b, hb⟩
  · intro best hbest
    obtain ⟨hmem, hmin, hsplit⟩ := firstMinObs_spec _ best hbest
    have hhead : (List.insertionSort obsLE (lines.filterMap parse_ir_line)).head? =
        some best := by rw [head?_insertionSort]; exact hbest
    refine ⟨?_, hmem, hmin, hsplit⟩
    simp only [_parse_ir_logs]
    cases hs : List.insertionSort obsLE (lines.filterMap parse_ir_line) with
    | nil => rw [hs] at hhead; exact absurd hhead (by simp)
    | cons b rest =>
      rw [hs] at hhead
      have hb : b = best := by injection hhead
      subst hb
      exact ⟨_, rfl⟩
  · exact ⟨rfl, rfl, rfl, rfl, rfl, rfl, rfl, rfl, rfl, rfl, rfl, rfl, rfl⟩

/-- Witness for C5 at the spec scenario: NEC is selected, the short
Pronto line is discarded as noise, no Pronto fallback is returned. -/
theorem C5_witness :
    _parse_ir_logs demoLines =
      .success "NEC" (some "1234") (some "5678") none none
        "NEC addr=0x1234 cmd=0x5678" ∧
    (⟨"NEC", some "1234", some "5678", none,
      "NEC addr=0x1234 cmd=0x5678"⟩ : ParsedObs) ∈
      demoLines.filterMap parse_ir_line := by
  have h := C5_disambiguation demoLines
  exact ⟨by decide, (h.2.2.2.1 _ (by decide)).2.1⟩

/-! ### C4 — convergence of consistent narrowing -/

/-- `narrowAfter` on a pool of two or more indices starts another round. -/
theorem narrowAfter_two_le (db : ButtonDb) (s0 : WizardSession)
    (h2 : 2 ≤ s0.narrowing_pool.length) :
    narrowAfter db s0 = some { s0 with
      narrowing_round := s0.narrowing_round + 1,
      narrowing_tested := s0.narrowing_pool.take (s0.narrowing_pool.length / 2) } := by
  unfold narrowAfter
  rw [if_neg (by omega), if_neg (by omega)]

/-- `narrowAfter` on a singleton pool resolves to that candidate. -/
theorem narrowAfter_singleton (db : ButtonDb) (s0 : WizardSession) (i : Nat)
    (c : Candidate) (hp : s0.narrowing_pool = [i])
    (hc : s0.power_candidates[i]? = some c) :
    narrowAfter db s0 = some (_resolve_candidate db s0 c) := by
  unfold narrowAfter
  rw [hp]
  rw [if_neg (by simp), if_pos (by simp)]
  simp [hc]

/-- One consistent narrowing round from a narrowing-phase state
satisfying the invariant: it succeeds, preserves the invariant and the
candidate list, roughly halves the pool, and either continues narrowing
(pool still ≥ 2, confirmed buttons untouched) or resolves to exactly
candidate `i`. -/
theorem narrow_consistent_step (db : ButtonDb) (i : Nat) (s : WizardSession)
    (hOk : NarrowOk i s) (hph : s.phase = .narrowing) :
    ∃ s', narrow_confirm db s (decide (i ∈ s.narrowing_tested)) = some s' ∧
      NarrowOk i s' ∧
      s'.power_candidates = s.power_candidates ∧
      s'.narrowing_pool.length - 1 ≤ (s.narrowing_pool.length - 1) / 2 ∧
      ((s'.phase = .narrowing ∧ 2 ≤ s'.narrowing_pool.length ∧
        s'.confirmed_buttons = s.confirmed_buttons) ∨
       (s'.narrowing_pool = [i] ∧ s'.phase = .map_buttons ∧
        ∃ c, s.power_candidates[i]? = some c ∧
          s'.matched_device_ids = c.device_ids ∧
          s'.confirmed_buttons = s.confirmed_buttons ++ [powerButtonOf c])) := by
  obtain ⟨hmem, hi, htf⟩ := hOk
  have ht := htf hph
  have hmem' : i ∈ poolUpdate s (decide (i ∈ s.narrowing_tested)) := by
    unfold poolUpdate
    by_cases hit : i ∈ s.narrowing_tested
    · rw [if_pos (by simpa using hit)]
      exact hit
    · rw [if_neg (by simpa using hit)]
      exact List.mem_filter.mpr ⟨hmem, by simpa using hit⟩
  have hlen1 : 1 ≤ (poolUpdate s (decide (i ∈ s.narrowing_tested))).length :=
    List.length_pos.mpr (List.ne_nil_of_mem hmem')
  have hbound : (poolUpdate s (decide (i ∈ s.narrowing_tested))).length - 1 ≤
      (s.narrowing_pool.length - 1) / 2 := by
    unfold poolUpdate
    by_cases hit : i ∈ s.narrowing_tested
    · rw [if_pos (by simpa using hit), ht, List.length_take]
      omega
    · rw [if_neg (by simpa using hit),
        filter_not_tested_eq s.narrowing_pool s.narrowing_tested ht]
      have h1 := List.length_filter_le (fun x => decide (x ∉ s.narrowing_tested))
        (s.narrowing_pool.drop (s.narrowing_pool.length / 2))
      rw [List.length_drop] at h1
      omega
  rw [narrow_confirm_eq]
  by_cases hone : (poolUpdate s (decide (i ∈ s.narrowing_tested))).length = 1
  · -- resolution round
    obtain ⟨a, ha⟩ := List.length_eq_one.mp hone
    have hai : a = i := by
      rw [ha] at hmem'
      exact (List.mem_singleton.mp hmem').symm
    subst hai
    have hc : s.power_candidates[a]? = some (s.power_candidates.get ⟨a, hi⟩) :=
      List.getElem?_eq_getElem hi
    have hstep : narrowAfter db
        { s with narrowing_pool := poolUpdate s (decide (a ∈ s.narrowing_tested)) } =
        some (_resolve_candidate db
          { s with narrowing_pool := poolUpdate s (decide (a ∈ s.narrowing_tested)) }
          (s.power_candidates.get ⟨a, hi⟩)) :=
      narrowAfter_singleton db _ a _ ha hc
    refine ⟨_, hstep, ⟨?_, hi, ?_⟩, rfl, ?_, Or.inr ⟨?_, rfl, ?_⟩⟩
    · show a ∈ poolUpdate s (decide (a ∈ s.narrowing_tested))
      exact hmem'
    · intro hc'
      rw [_resolve_candidate, load_phase] at hc'
      exact absurd hc' (by simp)
    · show (poolUpdate s (decide (a ∈ s.narrowing_tested))).length - 1 ≤ _
      omega
    · show poolUpdate s (decide (a ∈ s.narrowing_tested)) = [a]
      exact ha
    · exact ⟨s.power_candidates.get ⟨a, hi⟩, hc, rfl, rfl⟩
  · -- continue narrowing
    have h2 : 2 ≤ (poolUpdate s (decide (i ∈ s.narrowing_tested))).length := by omega
    have hstep : narrowAfter db
        { s with narrowing_pool := poolUpdate s (decide (i ∈ s.narrowing_tested)) } =
        some { { s with narrowing_pool := poolUpdate s (decide (i ∈ s.narrowing_tested)) } with
               narrowing_round := s.narrowing_round + 1,
               narrowing_tested := (poolUpdate s (decide (i ∈ s.narrowing_tested))).take
                 ((poolUpdate s (decide (i ∈ s.narrowing_tested))).length / 2) } :=
      narrowAfter_two_le db _ h2
    refine ⟨_, hstep, ⟨hmem', hi, fun _ => rfl⟩, rfl, hbound, Or.inl ⟨hph, h2, rfl⟩⟩

/-- The invariant survives any number of consistent rounds. -/
theorem runNarrow_preserves (db : ButtonDb) (i : Nat) :
    ∀ (j : Nat) (s : WizardSession), NarrowOk i s →
      ∀ sj, runNarrow db i j s = some sj → NarrowOk i sj := by
  intro j
  induction j with
  | zero =>
    intro s hOk sj h
    injection h with h
    subst h
    exact hOk
  | succ k ih =>
    intro s hOk sj h
    unfold runNarrow at h
    by_cases hph : s.phase = .narrowing
    · rw [if_pos hph] at h
      obtain ⟨s', heq, hOk', _⟩ := narrow_consistent_step db i s hOk hph
      rw [heq] at h
      exact ih s' hOk' sj h
    · rw [if_neg hph] at h
      injection h with h
      subst h
      exact hOk

/-- From any narrowing-phase state satisfying the invariant, at most
`⌈log₂ |pool|⌉` consistent rounds reach the singleton pool `[i]`, with
full resolution to candidate `i` whenever the pool had ≥ 2 entries. -/
theorem narrow_reach (db : ButtonDb) (i : Nat) :
    ∀ (L : Nat) (s : WizardSession), s.narrowing_pool.length ≤ L →
      NarrowOk i s → s.phase = .narrowing →
      ∃ k s', k ≤ Nat.clog 2 s.narrowing_pool.length ∧
        runNarrow db i k s = some s' ∧ s'.narrowing_pool = [i] ∧
        (2 ≤ s.narrowing_pool.length →
          s'.phase = .map_buttons ∧
          ∃ c, s.power_candidates[i]? = some c ∧
            s'.matched_device_ids = c.device_ids ∧
            s'.confirmed_buttons = s.confirmed_buttons ++ [powerButtonOf c]) := by
  intro L
  induction L with
  | zero =>
    intro s hL hOk _
    have hnil : s.narrowing_pool = [] :=
      List.length_eq_zero.mp (Nat.le_zero.mp hL)
    exact absurd hOk.1 (by rw [hnil]; simp)
  | succ L ihL =>
    intro s hL hOk hph
    have hmemlen : 1 ≤ s.narrowing_pool.length :=
      List.length_pos.mpr (List.ne_nil_of_mem hOk.1)
    by_cases h1 : s.narrowing_pool.length = 1
    · obtain ⟨a, ha⟩ := List.length_eq_one.mp h1
      have hai : a = i := by
        have := hOk.1
        rw [ha] at this
        exact (List.mem_singleton.mp this).symm
      subst hai
      refine ⟨0, s, Nat.zero_le _, rfl, ha, ?_⟩
      intro h2
      omega
    · have h2 : 2 ≤ s.narrowing_pool.length := by omega
      obtain ⟨s1, heq, hOk1, hpc1, hbound, hdisj⟩ :=
        narrow_consistent_step db i s hOk hph
      rcases hdisj with ⟨hph1, h2len1, hconf1⟩ | ⟨hpool1, hph1, c, hc, hm1, hcf1⟩
      · -- round continues
        have hlen1 : s1.narrowing_pool.length ≤ L := by omega
        obtain ⟨k1, s2, hk1, hrun1, hpool2, hres2⟩ := ihL s1 hlen1 hOk1 hph1
        refine ⟨k1 + 1, s2, ?_, ?_, hpool2, ?_⟩
        · have hmono := Nat.clog_mono_right 2
            (show s1.narrowing_pool.length ≤ (s.narrowing_pool.length + 1) / 2 by omega)
          have hrec := Nat.clog_of_two_le (show 1 < 2 by omega) h2
          have hsame : s.narrowing_pool.length + 2 - 1 = s.narrowing_pool.length + 1 := by
            omega
          rw [hsame] at hrec
          omega
        · unfold runNarrow
          rw [if_pos hph, heq]
          exact hrun1
        · intro _
          obtain ⟨hph2, c, hc2, hm2, hcf2⟩ := hres2 h2len1
          rw [hpc1] at hc2
          rw [hconf1] at hcf2
          exact ⟨hph2, c, hc2, hm2, hcf2⟩
      · -- resolved in this round
        refine ⟨1, s1, ?_, ?_, hpool1, fun _ => ⟨hph1, c, hc, hm1, hcf1⟩⟩
        · have := Nat.clog_pos (show 1 < 2 by omega) h2
          omega
        · unfold runNarrow
          rw [if_pos hph, heq]
          rfl

/-- C4: for `n ≥ 1` candidates and a target candidate `i`, consistent
answers (worked exactly when `i` is in the tested subset) drive the
narrowing started by `start_narrowing` to the singleton pool `[i]`
within at most `⌈log₂ n⌉` rounds; the pool always contains `i` along
the way — the empty-pool fallback is never taken — and for `n ≥ 2` the
session resolves to candidate `i` (phase `MapButtons`, matched ids and
confirmed "Power" button from candidate `i`). -/
theorem C4_convergence (db : ButtonDb) (s : WizardSession) (i : Nat)
    (hn : 1 ≤ s.power_candidates.length) (hi : i < s.power_candidates.length) :
    ∃ k s', k ≤ Nat.clog 2 s.power_candidates.length ∧
      runNarrow db i k (start_narrowing s) = some s' ∧
      s'.narrowing_pool = [i] ∧
      (∀ j sj, runNarrow db i j (start_narrowing s) = some sj →
        i ∈ sj.narrowing_pool) ∧
      (2 ≤ s.power_candidates.length →
        s'.phase = .map_buttons ∧
        ∃ c, s.power_candidates[i]? = some c ∧
          s'.matched_device_ids = c.device_ids ∧
          s'.confirmed_buttons = s.confirmed_buttons ++ [powerButtonOf c]) := by
  have hOk : NarrowOk i (start_narrowing s) := by
    refine ⟨?_, hi, fun _ => rfl⟩
    show i ∈ List.range s.power_candidates.length
    exact List.mem_range.mpr hi
  have hph : (start_narrowing s).phase = .narrowing := rfl
  have hlen : (start_narrowing s).narrowing_pool.length = s.power_candidates.length :=
    List.length_range _
  obtain ⟨k, s', hk, hrun, hpool, hres⟩ := narrow_reach db i
    ((start_narrowing s).narrowing_pool.length) (start_narrowing s) le_rfl hOk hph
  refine ⟨k, s', by rw [← hlen]; exact hk, hrun, hpool, ?_, ?_⟩
  · intro j sj hj
    exact (runNarrow_preserves db i j (start_narrowing s) hOk sj hj).1
  · intro h2
    have h2' : 2 ≤ (start_narrowing s).narrowing_pool.length := by
      rw [hlen]; exact h2
    obtain ⟨hph', c, hc, hm, hcf⟩ := hres h2'
    exact ⟨hph', c, hc, hm, hcf⟩

/-- Witness for C4 at the two-candidate demo session, target candidate 0. -/
theorem C4_witness :
    1 ≤ bulkDemo.power_candidates.length ∧
    (∃ k s', k ≤ Nat.clog 2 bulkDemo.power_candidates.length ∧
      runNarrow dbEmpty 0 k (start_narrowing bulkDemo) = some s' ∧
      s'.narrowing_pool = [0] ∧
      (∀ j sj, runNarrow dbEmpty 0 j (start_narrowing bulkDemo) = some sj →
        0 ∈ sj.narrowing_pool) ∧
      (2 ≤ bulkDemo.power_candidates.length →
        s'.phase = .map_buttons ∧
        ∃ c, bulkDemo.power_candidates[0]? = some c ∧
          s'.matched_device_ids = c.device_ids ∧
          s'.confirmed_buttons = bulkDemo.confirmed_buttons ++ [powerButtonOf c])) :=
  ⟨by decide, C4_convergence dbEmpty bulkDemo 0 (by decide) (by decide)⟩
